import Mathlib

/-
Shallow embedding of src/main.py (a process watchdog).

Modelling conventions:
- Timestamps and durations are rationals, in seconds since an epoch.
  A calendar day is 86400 seconds; `dateOf` is the calendar day of a
  timestamp and `timeOf` its time-of-day, mirroring Python's
  `datetime.date()` and `datetime.time()`.
- The OS process table is a list of (name, pid) pairs; `psutil.process_iter`
  enumerates it in list order.
- Each `datetime.now()` call outside the monitoring loop reads the next
  value of an explicit clock sequence `c : Nat -> Rat`; inside the
  monitoring loop time is idealised to advance by exactly the sleep
  interval per iteration.
- The pandas DataFrame backing the report CSV is a list of records;
  `to_csv` persistence is the identity on this model (each mutation is
  immediately durable).
- The mutable attributes `start_time`, `end_time`, `duration` that
  `Process.prepare_to_monitor` sets on the Python object are threaded as
  explicit values through `pymain`.
-/

/-- Seconds in one calendar day. -/
def secondsPerDay : ℚ := 86400

/-- Calendar day of a timestamp, as in `datetime.datetime.now().date()`. -/
def dateOf (t : ℚ) : ℤ := ⌊t / secondsPerDay⌋

/-- Time-of-day of a timestamp, as in `datetime.time()`. -/
def timeOf (t : ℚ) : ℚ := t - secondsPerDay * (dateOf t : ℚ)

lemma secondsPerDay_pos : (0 : ℚ) < secondsPerDay := by norm_num [secondsPerDay]

lemma dateOf_eq_of_bounds (t : ℚ) (k : ℤ) (h1 : (k : ℚ) * secondsPerDay ≤ t)
    (h2 : t < ((k : ℚ) + 1) * secondsPerDay) : dateOf t = k := by
  unfold dateOf
  rw [Int.floor_eq_iff]
  constructor
  · rw [le_div_iff₀ secondsPerDay_pos]
    exact h1
  · rw [div_lt_iff₀ secondsPerDay_pos]
    linarith

lemma timeOf_eq_of_bounds (t : ℚ) (k : ℤ) (h1 : (k : ℚ) * secondsPerDay ≤ t)
    (h2 : t < ((k : ℚ) + 1) * secondsPerDay) : timeOf t = t - (k : ℚ) * secondsPerDay := by
  unfold timeOf
  rw [dateOf_eq_of_bounds t k h1 h2]
  ring

lemma timeOf_small (t : ℚ) (h1 : 0 ≤ t) (h2 : t < secondsPerDay) : timeOf t = t := by
  have h := timeOf_eq_of_bounds t 0 (by simpa using h1) (by simpa using h2)
  simpa using h

/-- One entry of the OS process table: a process name and its pid. -/
structure Proc where
  name : String
  pid : Int
  deriving DecidableEq

/-- The watchdog's `Process` object; only its `name` attribute persists
(the timing attributes are threaded explicitly through `pymain`). -/
structure Process where
  name : String
  deriving DecidableEq

/-- `Process.State` from main.py. -/
inductive Process.State where
  | On
  | Off
  deriving DecidableEq

/-- `Process.get_pid` (main.py lines 23-27): scans the process table and
returns the pid of the first process whose name equals the GLOBAL
`args.process` (not `self.name`); returns -1 when none matches. -/
def Process.get_pid (self : Process) (argsProcess : String) (table : List Proc) : Int :=
  match table.find? (fun q => q.name == argsProcess) with
  | some q => q.pid
  | none => -1

/-- `Process.get_state` (main.py lines 29-33): On iff some process in the
table has name equal to the GLOBAL `args.process`. -/
def Process.get_state (self : Process) (argsProcess : String) (table : List Proc) : Process.State :=
  match table.find? (fun q => q.name == argsProcess) with
  | some _ => Process.State.On
  | none => Process.State.Off

/-- The spec's `find(name)` operation, worded from the spec for comparison
with the code's probes: first match by exact, case-sensitive name equality
against the monitored process's own name. -/
def find_spec (name : String) (table : List Proc) : Option Int :=
  (table.find? (fun q => q.name == name)).map (fun q => q.pid)

/-- Outcome of the POSIX `os.kill(pid, SIGKILL)` call made by
`Process.terminate` (main.py line 65). -/
inductive KillOutcome where
  | signaled (pid : Int)
  | signalAllUserProcesses
  | processLookupError
  deriving DecidableEq

/-- POSIX `os.kill` semantics for the pids reachable from `get_pid`:
pid -1 signals every process the caller may signal; a pid absent from the
table raises ProcessLookupError; otherwise the one process is signaled.
`Process.terminate` wraps this call in no try/except, so any error
propagates out of the run. -/
def os_kill (table : List Proc) (pid : Int) : KillOutcome :=
  if pid = -1 then KillOutcome.signalAllUserProcesses
  else if (table.filter (fun q => q.pid = pid)).isEmpty then KillOutcome.processLookupError
  else KillOutcome.signaled pid

/-- `Process.terminate` (main.py lines 57-65), POSIX branch:
`os.kill(self.get_pid(), signal.SIGKILL)` with no error handling. -/
def Process.terminate (self : Process) (argsProcess : String) (table : List Proc) : KillOutcome :=
  os_kill table (Process.get_pid self argsProcess table)

/-- The polling interval computed at main.py line 47:
`self.duration.total_seconds() / 100`, with no clamping. -/
def computeInterval (durationSeconds : ℚ) : ℚ := durationSeconds / 100

/-- Round to the nearest integer, ties to even (Python `round`). -/
def roundHalfEven (x : ℚ) : ℤ :=
  let f := ⌊x⌋
  let frac := x - (f : ℚ)
  if frac < 1 / 2 then f
  else if 1 / 2 < frac then f + 1
  else if f % 2 = 0 then f else f + 1

/-- Python `round(x, 2)` on our rational idealisation of floats. -/
def pyRound2 (x : ℚ) : ℚ := (roundHalfEven (100 * x) : ℚ) / 100

/-- `get_duration_percentage` (main.py lines 135-140): percentage of the
window elapsed, dividing by `end_time - start_time` with no guard. -/
def get_duration_percentage (start_time end_time current_time : ℚ) : ℚ :=
  pyRound2 (100 * ((current_time - start_time) / (end_time - start_time)))

/-- `Process.monitor` (main.py lines 46-55), fuel-indexed. Starting from
the current time `t`, the loop continues while the process is running and
`t < endT`; each iteration records the time at which the loop body called
`get_duration_percentage` and printed progress, then sleeps `interval`.
Time is idealised to advance by exactly `interval` per iteration. Returns
the exit time and the list of body-sample times. -/
def monitorRun (running : ℚ → Bool) (endT interval : ℚ) : ℕ → ℚ → ℚ × List ℚ
  | 0, t => (t, [])
  | Nat.succ fuel, t =>
    if running t = true ∧ t < endT then
      let rest := monitorRun running endT interval fuel (t + interval)
      (rest.1, t :: rest.2)
    else (t, [])

lemma monitorRun_of_le (running : ℚ → Bool) (endT interval : ℚ) (fuel : ℕ) (t : ℚ)
    (h : endT ≤ t) : monitorRun running endT interval fuel t = (t, []) := by
  cases fuel with
  | zero => rfl
  | succ fuel =>
    unfold monitorRun
    rw [if_neg]
    rintro ⟨-, hlt⟩
    exact absurd hlt (not_lt.mpr h)

lemma monitorRun_exit_lt (running : ℚ → Bool) (endT interval : ℚ) :
    ∀ (fuel : ℕ) (t : ℚ), endT ≤ t + (fuel : ℚ) * interval → t < endT + interval →
      (monitorRun running endT interval fuel t).1 < endT + interval := by
  intro fuel
  induction fuel with
  | zero =>
    intro t hf ht
    simpa [monitorRun] using ht
  | succ fuel ih =>
    intro t hf ht
    unfold monitorRun
    by_cases hg : running t = true ∧ t < endT
    · rw [if_pos hg]
      refine ih (t + interval) ?_ ?_
      · push_cast at hf ⊢
        linarith
      · linarith [hg.2]
    · rw [if_neg hg]
      simpa using ht

lemma monitorRun_exit_guard (running : ℚ → Bool) (endT interval : ℚ) :
    ∀ (fuel : ℕ) (t : ℚ), endT ≤ t + (fuel : ℚ) * interval →
      ¬ (running (monitorRun running endT interval fuel t).1 = true
          ∧ (monitorRun running endT interval fuel t).1 < endT) := by
  intro fuel
  induction fuel with
  | zero =>
    intro t hf
    simp only [monitorRun]
    rintro ⟨-, hlt⟩
    push_cast at hf
    linarith
  | succ fuel ih =>
    intro t hf
    unfold monitorRun
    by_cases hg : running t = true ∧ t < endT
    · rw [if_pos hg]
      refine ih (t + interval) ?_
      push_cast at hf ⊢
      linarith
    · rw [if_neg hg]
      simpa using hg

lemma monitorRun_samples_lt (running : ℚ → Bool) (endT interval : ℚ) :
    ∀ (fuel : ℕ) (t u : ℚ), u ∈ (monitorRun running endT interval fuel t).2 → u < endT := by
  intro fuel
  induction fuel with
  | zero =>
    intro t u hu
    simp [monitorRun] at hu
  | succ fuel ih =>
    intro t u hu
    unfold monitorRun at hu
    by_cases hg : running t = true ∧ t < endT
    · rw [if_pos hg] at hu
      simp only [List.mem_cons] at hu
      rcases hu with rfl | hu
      · exact hg.2
      · exact ih (t + interval) u hu
    · rw [if_neg hg] at hu
      simp at hu

lemma monitorRun_samples_ge (running : ℚ → Bool) (endT interval : ℚ)
    (hi : 0 ≤ interval) :
    ∀ (fuel : ℕ) (t u : ℚ), u ∈ (monitorRun running endT interval fuel t).2 → t ≤ u := by
  intro fuel
  induction fuel with
  | zero =>
    intro t u hu
    simp [monitorRun] at hu
  | succ fuel ih =>
    intro t u hu
    unfold monitorRun at hu
    by_cases hg : running t = true ∧ t < endT
    · rw [if_pos hg] at hu
      simp only [List.mem_cons] at hu
      rcases hu with rfl | hu
      · exact le_refl u
      · linarith [ih (t + interval) u hu]
    · rw [if_neg hg] at hu
      simp at hu

/-- One row of the report CSV (`UsageRecord` of the spec). `date` is a
calendar day; `start_time` and `expected_end_time` are times-of-day;
`actual_end_time` is `none` for the literal sentinel "unknown" and
`some t` for a recorded time-of-day `t`; `duration` is a time-span in
seconds. -/
structure UsageRecord where
  date : ℤ
  start_time : ℚ
  expected_end_time : ℚ
  actual_end_time : Option ℚ
  duration : ℚ
  times_opened_today : ℕ
  deriving DecidableEq

/-- The rows whose `date` equals the given day, in order
(`self.report_df.loc[self.report_df["date"] == self.date.isoformat()]`). -/
def todayRows (df : List UsageRecord) (d : ℤ) : List UsageRecord :=
  df.filter (fun r => r.date == d)

/-- `Report._get_times_opened_today` (main.py lines 93-100): 1 when no row
has today's date, otherwise the `times_opened_today` of the last matching
row plus 1. -/
def getTimesOpenedToday (df : List UsageRecord) (d : ℤ) : ℕ :=
  match (todayRows df d).getLast? with
  | none => 1
  | some r => r.times_opened_today + 1

/-- The row `Report.report_start` builds (main.py lines 105-110): the
Report's construction-time date, the Process's start and expected end as
times-of-day, the "unknown" sentinel, the duration, and the freshly
computed daily count. -/
def mkSessionRecord (df : List UsageRecord) (d : ℤ) (startT endT dur : ℚ) : UsageRecord :=
  { date := d
    start_time := timeOf startT
    expected_end_time := timeOf endT
    actual_end_time := none
    duration := dur
    times_opened_today := getTimesOpenedToday df d }

/-- `Report.report_start` (main.py lines 102-112): appends the new row at
index `last+1` (the end of the table) and persists. -/
def report_start (df : List UsageRecord) (d : ℤ) (startT endT dur : ℚ) : List UsageRecord :=
  df ++ [mkSessionRecord df d startT endT dur]

/-- `Report.report_termination` (main.py lines 115-119): overwrites the
last row's `actual_end_time` with the current time-of-day and persists;
on an empty table the positional update aligns on index -1 and is a
no-op. -/
def report_termination (df : List UsageRecord) (now : ℚ) : List UsageRecord :=
  match df.getLast? with
  | none => df
  | some r => df.dropLast ++ [{ r with actual_end_time := some (timeOf now) }]

lemma report_termination_concat (df : List UsageRecord) (r : UsageRecord) (now : ℚ) :
    report_termination (df ++ [r]) now
      = df ++ [{ r with actual_end_time := some (timeOf now) }] := by
  unfold report_termination
  rw [List.getLast?_concat, List.dropLast_concat]

/-- One full watchdog run's effect on the persisted table: the session row
is appended by `report_start` and later closed by `report_termination`
(both the over-limit fast path and the monitored path do exactly this). -/
def runOnce (d : ℤ) (startT endT dur tc : ℚ) (df : List UsageRecord) : List UsageRecord :=
  report_termination (report_start df d startT endT dur) tc

/-- The persisted table after `n` successive watchdog runs on calendar day
`d`, the `i`-th run using start, expected-end, duration and close times
`stF i`, `etF i`, `durF i`, `tcF i`; each run reloads the table the
previous run persisted. -/
def launchSeq (df : List UsageRecord) (d : ℤ) (stF etF durF tcF : ℕ → ℚ) : ℕ → List UsageRecord
  | 0 => df
  | Nat.succ n => runOnce d (stF n) (etF n) (durF n) (tcF n) (launchSeq df d stF etF durF tcF n)

lemma runOnce_eq (d : ℤ) (startT endT dur tc : ℚ) (df : List UsageRecord) :
    runOnce d startT endT dur tc df
      = df ++ [{ mkSessionRecord df d startT endT dur with actual_end_time := some (timeOf tc) }] := by
  unfold runOnce report_start
  exact report_termination_concat df (mkSessionRecord df d startT endT dur) tc

lemma todayRows_concat (df : List UsageRecord) (r : UsageRecord) (d : ℤ) :
    todayRows (df ++ [r]) d = todayRows df d ++ if r.date == d then [r] else [] := by
  unfold todayRows
  rw [List.filter_append]
  congr 1
  by_cases h : r.date == d
  · simp [List.filter, h]
  · simp only [Bool.not_eq_true] at h
    simp [List.filter, h]

lemma getTimesOpenedToday_concat_today (df : List UsageRecord) (r : UsageRecord) (d : ℤ)
    (h : r.date = d) :
    getTimesOpenedToday (df ++ [r]) d = r.times_opened_today + 1 := by
  unfold getTimesOpenedToday
  rw [todayRows_concat, if_pos (by simpa using h), List.getLast?_concat]

lemma getTimesOpenedToday_concat_other (df : List UsageRecord) (r : UsageRecord) (d : ℤ)
    (h : r.date ≠ d) :
    getTimesOpenedToday (df ++ [r]) d = getTimesOpenedToday df d := by
  unfold getTimesOpenedToday
  rw [todayRows_concat, if_neg (by simpa using h), List.append_nil]

lemma getTimesOpenedToday_of_empty (df : List UsageRecord) (d : ℤ)
    (h : todayRows df d = []) : getTimesOpenedToday df d = 1 := by
  unfold getTimesOpenedToday
  rw [h]
  rfl

lemma launchSeq_count (df : List UsageRecord) (d : ℤ) (stF etF durF tcF : ℕ → ℚ)
    (h : todayRows df d = []) :
    ∀ n, getTimesOpenedToday (launchSeq df d stF etF durF tcF n) d = n + 1 := by
  intro n
  induction n with
  | zero => exact getTimesOpenedToday_of_empty df d h
  | succ n ih =>
    show getTimesOpenedToday (runOnce d (stF n) (etF n) (durF n) (tcF n)
      (launchSeq df d stF etF durF tcF n)) d = n + 1 + 1
    rw [runOnce_eq, getTimesOpenedToday_concat_today _ _ d (by rfl)]
    show getTimesOpenedToday (launchSeq df d stF etF durF tcF n) d + 1 = n + 1 + 1
    rw [ih]

lemma launchSeq_other_day (df : List UsageRecord) (d dNew : ℤ) (stF etF durF tcF : ℕ → ℚ)
    (hne : d ≠ dNew) :
    ∀ n, getTimesOpenedToday (launchSeq df d stF etF durF tcF n) dNew
      = getTimesOpenedToday df dNew := by
  intro n
  induction n with
  | zero => rfl
  | succ n ih =>
    show getTimesOpenedToday (runOnce d (stF n) (etF n) (durF n) (tcF n)
      (launchSeq df d stF etF durF tcF n)) dNew = getTimesOpenedToday df dNew
    rw [runOnce_eq, getTimesOpenedToday_concat_other _ _ dNew (by exact hne), ih]

/-- The observable actions of one watchdog run, in program order:
the ledger append (`report_start`), each "Monitoring, ...% of total
duration passed" progress line with its percentage, the ledger close
(`report_termination`) carrying the time it sampled, and the kill signal
(`Process.terminate`) carrying the pid it was issued for. -/
inductive Event where
  | append
  | progress (pct : ℚ)
  | close (t : ℚ)
  | terminate (pid : Int)
  deriving DecidableEq

/-- Whether an event is the kill signal. -/
def Event.isTerminate : Event → Bool
  | Event.terminate _ => true
  | _ => false

/-- Result of one run of `main`: its event trace and the persisted table. -/
structure RunResult where
  events : List Event
  ledger : List UsageRecord
  deriving DecidableEq

/-- `main` (main.py lines 147-176) for a run in which the process has been
detected. Clock reads: `c 0` at `Report.__init__` (captures the date),
`c 1` at `prepare_to_monitor` (captures `start_time`; this is after
`wait_until_started` returns), `c 2` at the fast path's
`report_termination`. On the monitored path the `report_termination`
clock read is idealised as the monitor loop's exit time. `running t`
tells whether the process is still in the table at time `t`, and `table`
is the process table consulted by the final `get_pid`. -/
def pymain (c : ℕ → ℚ) (running : ℚ → Bool) (fuel : ℕ) (df0 : List UsageRecord)
    (D : ℚ) (maxT : ℕ) (argsProcess : String) (table : List Proc) : RunResult :=
  let d := dateOf (c 0)
  let startT := c 1
  let endT := startT + D
  let timesOpened := getTimesOpenedToday df0 d
  let df1 := report_start df0 d startT endT D
  if maxT < timesOpened then
    { events := [Event.append, Event.close (c 2),
        Event.terminate (Process.get_pid ⟨argsProcess⟩ argsProcess table)]
      ledger := report_termination df1 (c 2) }
  else
    let m := monitorRun running endT (computeInterval D) fuel startT
    { events := Event.append
        :: m.2.map (fun t => Event.progress (get_duration_percentage startT endT t))
        ++ [Event.close m.1,
            Event.terminate (Process.get_pid ⟨argsProcess⟩ argsProcess table)]
      ledger := report_termination df1 m.1 }

/-- Claim C1: `_get_times_opened_today` returns 1 when no persisted row has
the current calendar day's date and otherwise the last matching row's
`times_opened_today` plus 1; hence over any sequence of runs within one
calendar day the Nth launch computes count N (here: after n completed runs
the next computation yields n+1), and the first launch of a new calendar
day computes 1 regardless of the previous day's final count. -/
theorem claim_C1 (df : List UsageRecord) (d dNew : ℤ) (stF etF durF tcF : ℕ → ℚ)
    (h : todayRows df d = []) (hNew : todayRows df dNew = []) (hne : d ≠ dNew) :
    (∀ n, getTimesOpenedToday (launchSeq df d stF etF durF tcF n) d = n + 1) ∧
    (∀ n, getTimesOpenedToday (launchSeq df d stF etF durF tcF n) dNew = 1) := by
  constructor
  · exact launchSeq_count df d stF etF durF tcF h
  · intro n
    rw [launchSeq_other_day df d dNew stF etF durF tcF hne n]
    exact getTimesOpenedToday_of_empty df dNew hNew

/-- Witness for C1: a ledger holding one day-0 row with final count 7;
launches on day 1 count 1, 2, 3, ... and the first launch of day 2
counts 1. -/
theorem claim_C1_witness :
    todayRows [UsageRecord.mk 0 100 200 (some 300) 600 7] 1 = [] ∧
    todayRows [UsageRecord.mk 0 100 200 (some 300) 600 7] 2 = [] ∧
    (1 : ℤ) ≠ 2 ∧
    ((∀ n, getTimesOpenedToday
        (launchSeq [UsageRecord.mk 0 100 200 (some 300) 600 7] 1
          (fun _ => 0) (fun _ => 0) (fun _ => 0) (fun _ => 0) n) 1 = n + 1) ∧
     (∀ n, getTimesOpenedToday
        (launchSeq [UsageRecord.mk 0 100 200 (some 300) 600 7] 1
          (fun _ => 0) (fun _ => 0) (fun _ => 0) (fun _ => 0) n) 2 = 1)) :=
  ⟨by decide, by decide, by decide,
   claim_C1 [UsageRecord.mk 0 100 200 (some 300) 600 7] 1 2
     (fun _ => 0) (fun _ => 0) (fun _ => 0) (fun _ => 0)
     (by decide) (by decide) (by decide)⟩

/-- Claim C2 (code_bug evidence): when the monitored process has vanished
from the table by terminate time, `get_pid` returns the sentinel -1 and
`Process.terminate` passes it straight to `os.kill`, which on POSIX means
"signal every process the caller may signal" — not a gracefully logged
ProcessNotFound, and with no try/except any error escapes the run. -/
theorem claim_C2_code :
    Process.get_pid ⟨"someapp"⟩ "someapp" [⟨"otherapp", 1234⟩] = -1 ∧
    Process.terminate ⟨"someapp"⟩ "someapp" [⟨"otherapp", 1234⟩]
      = KillOutcome.signalAllUserProcesses ∧
    Process.terminate ⟨"someapp"⟩ "someapp" [⟨"otherapp", 1234⟩]
      ≠ KillOutcome.processLookupError := by
  refine ⟨by decide, by decide, by decide⟩

/-- Claim C6 counterexample: the polling interval is not clamped to a
positive minimum — a zero configured duration yields interval 0 and a
negative duration yields a negative interval. -/
theorem claim_C6_cex :
    computeInterval 0 = 0 ∧ ¬ 0 < computeInterval 0 ∧ computeInterval (-1) < 0 := by
  norm_num [computeInterval]

/-- Claim C6 (amended): the Monitoring polling interval equals
duration / 100 exactly, with no clamping: it is positive precisely when
the configured duration is positive. -/
theorem claim_C6_amended (d : ℚ) :
    computeInterval d = d / 100 ∧ (0 < computeInterval d ↔ 0 < d) := by
  refine ⟨rfl, ?_⟩
  unfold computeInterval
  constructor <;> intro h <;> linarith

/-- Claim C7 counterexample: the probes compare against the global CLI
argument `args.process`, not the instance's own `name` attribute — a
Process named "chrome" probed while `args.process` is "firefox" reports
Off even though a process named "chrome" is in the table. -/
theorem claim_C7_cex :
    Process.get_state ⟨"chrome"⟩ "firefox" [⟨"chrome", 42⟩] = Process.State.Off ∧
    find_spec "chrome" [⟨"chrome", 42⟩] = some 42 := by
  refine ⟨by decide, by decide⟩

/-- Claim C7 (amended): the probes select the first table entry whose name
exactly equals the global `args.process`; whenever the instance was
constructed with that same name — as `main` does — `get_pid` returns the
first match's pid (or -1 when none) and `get_state` is On exactly when a
match exists, i.e. they refine the spec's `find` on the instance's name. -/
theorem claim_C7_amended (self : Process) (argsProcess : String) (table : List Proc)
    (h : self.name = argsProcess) :
    Process.get_pid self argsProcess table = (find_spec self.name table).getD (-1) ∧
    (Process.get_state self argsProcess table = Process.State.On ↔
      (find_spec self.name table).isSome = true) := by
  subst h
  unfold Process.get_pid Process.get_state find_spec
  cases hf : table.find? (fun q => q.name == self.name) with
  | none => exact ⟨rfl, by simp⟩
  | some q => exact ⟨rfl, by simp⟩

/-- Witness for C7 (amended), at a table holding two processes named
"chrome": the probes pick the first one, pid 7. -/
theorem claim_C7_witness :
    (Process.mk "chrome").name = "chrome" ∧
    (Process.get_pid ⟨"chrome"⟩ "chrome" [⟨"chrome", 7⟩, ⟨"chrome", 9⟩]
        = (find_spec (Process.mk "chrome").name [⟨"chrome", 7⟩, ⟨"chrome", 9⟩]).getD (-1) ∧
      (Process.get_state ⟨"chrome"⟩ "chrome" [⟨"chrome", 7⟩, ⟨"chrome", 9⟩]
          = Process.State.On ↔
        (find_spec (Process.mk "chrome").name [⟨"chrome", 7⟩, ⟨"chrome", 9⟩]).isSome = true)) :=
  ⟨rfl, claim_C7_amended ⟨"chrome"⟩ "chrome" [⟨"chrome", 7⟩, ⟨"chrome", 9⟩] rfl⟩

/-- Claim C8: after `report_start` the table's last record is the new
session row with the "unknown" sentinel end time; `report_termination`
then yields exactly the original rows followed by that same record with
only `actual_end_time` populated — every other field and every other row
unchanged. -/
theorem claim_C8 (df : List UsageRecord) (d : ℤ) (st et dur tc : ℚ) :
    (report_start df d st et dur).getLast? = some (mkSessionRecord df d st et dur) ∧
    (mkSessionRecord df d st et dur).actual_end_time = none ∧
    report_termination (report_start df d st et dur) tc
      = df ++ [{ mkSessionRecord df d st et dur with actual_end_time := some (timeOf tc) }] := by
  refine ⟨?_, rfl, report_termination_concat df _ tc⟩
  unfold report_start
  exact List.getLast?_concat df

lemma pymain_overLimit (c : ℕ → ℚ) (running : ℚ → Bool) (fuel : ℕ) (df0 : List UsageRecord)
    (D : ℚ) (maxT : ℕ) (p : String) (tbl : List Proc)
    (h : maxT < getTimesOpenedToday df0 (dateOf (c 0))) :
    pymain c running fuel df0 D maxT p tbl
      = { events := [Event.append, Event.close (c 2),
            Event.terminate (Process.get_pid ⟨p⟩ p tbl)]
          ledger := df0 ++ [{ mkSessionRecord df0 (dateOf (c 0)) (c 1) (c 1 + D) D with
                    actual_end_time := some (timeOf (c 2)) }] } := by
  simp only [pymain]
  rw [if_pos h]
  unfold report_start
  rw [report_termination_concat]

lemma pymain_inLimit (c : ℕ → ℚ) (running : ℚ → Bool) (fuel : ℕ) (df0 : List UsageRecord)
    (D : ℚ) (maxT : ℕ) (p : String) (tbl : List Proc)
    (h : getTimesOpenedToday df0 (dateOf (c 0)) ≤ maxT) :
    pymain c running fuel df0 D maxT p tbl
      = { events := Event.append
            :: (monitorRun running (c 1 + D) (computeInterval D) fuel (c 1)).2.map
                (fun t => Event.progress (get_duration_percentage (c 1) (c 1 + D) t))
            ++ [Event.close (monitorRun running (c 1 + D) (computeInterval D) fuel (c 1)).1,
                Event.terminate (Process.get_pid ⟨p⟩ p tbl)]
          ledger := df0 ++ [{ mkSessionRecord df0 (dateOf (c 0)) (c 1) (c 1 + D) D with
                    actual_end_time
                      := some (timeOf (monitorRun running (c 1 + D) (computeInterval D) fuel (c 1)).1) }] }
      := by
  simp only [pymain]
  rw [if_neg (not_lt.mpr h)]
  unfold report_start
  rw [report_termination_concat]

/-- Claim C10: `get_duration_percentage` divides by `end_time - start_time`
with no guard, yet every call made from the monitor loop is safe: the
body runs only at sample times `u` with `u < end_time`, and with a
monotone clock (`start_time ≤ t0`, the first sample) every sample
satisfies `start_time ≤ u`, so the denominator `end_time - start_time`
is strictly positive at every call, for every configured duration
including zero and negative ones. -/
theorem claim_C10 (running : ℚ → Bool) (startT D t0 : ℚ) (fuel : ℕ)
    (h0 : startT ≤ t0) :
    ∀ u ∈ (monitorRun running (startT + D) (computeInterval D) fuel t0).2,
      startT ≤ u ∧ u < startT + D ∧ 0 < (startT + D) - startT := by
  intro u hu
  by_cases hD : 0 < D
  · have hi : (0 : ℚ) ≤ computeInterval D := by
      unfold computeInterval
      positivity
    have h1 := monitorRun_samples_ge running (startT + D) (computeInterval D) hi fuel t0 u hu
    have h2 := monitorRun_samples_lt running (startT + D) (computeInterval D) fuel t0 u hu
    exact ⟨le_trans h0 h1, h2, by linarith⟩
  · push_neg at hD
    rw [monitorRun_of_le running (startT + D) (computeInterval D) fuel t0 (by linarith)] at hu
    simp at hu

/-- Witness for C10: a concrete monitored window (start 0, duration 10,
first sample at 0, three loop iterations). -/
theorem claim_C10_witness :
    (0 : ℚ) ≤ 0 ∧
    ∀ u ∈ (monitorRun (fun _ => true) (0 + 10) (computeInterval 10) 3 0).2,
      (0 : ℚ) ≤ u ∧ u < 0 + 10 ∧ (0 : ℚ) < ((0 : ℚ) + 10) - 0 :=
  ⟨le_refl 0, claim_C10 (fun _ => true) 0 10 0 3 (le_refl 0)⟩

/-- Claim C4: whenever the computed launch count exceeds `maxTimesOpened`,
the run takes the fast path: the session row is appended, immediately
closed with the next clock reading as `actual_end_time`, the kill signal
is issued in the same invocation, and the run ends without entering
Monitoring — its trace contains no progress event at all. -/
theorem claim_C4 (c : ℕ → ℚ) (running : ℚ → Bool) (fuel : ℕ) (df0 : List UsageRecord)
    (D : ℚ) (maxT : ℕ) (p : String) (tbl : List Proc)
    (h : maxT < getTimesOpenedToday df0 (dateOf (c 0))) :
    (pymain c running fuel df0 D maxT p tbl).events
      = [Event.append, Event.close (c 2), Event.terminate (Process.get_pid ⟨p⟩ p tbl)] ∧
    (pymain c running fuel df0 D maxT p tbl).ledger
      = df0 ++ [{ mkSessionRecord df0 (dateOf (c 0)) (c 1) (c 1 + D) D with
                  actual_end_time := some (timeOf (c 2)) }] ∧
    (∀ q, Event.progress q ∉ (pymain c running fuel df0 D maxT p tbl).events) := by
  rw [pymain_overLimit c running fuel df0 D maxT p tbl h]
  refine ⟨rfl, rfl, ?_⟩
  intro q hq
  simp at hq

/-- Witness for C4: first launch of the day with `maxTimesOpened = 0`. -/
theorem claim_C4_witness :
    (0 < getTimesOpenedToday [] (dateOf ((fun i : ℕ => (i : ℚ)) 0))) ∧
    ((pymain (fun i : ℕ => (i : ℚ)) (fun _ => true) 0 [] 5 0 "someapp" []).events
      = [Event.append, Event.close ((fun i : ℕ => (i : ℚ)) 2),
         Event.terminate (Process.get_pid ⟨"someapp"⟩ "someapp" [])] ∧
     (pymain (fun i : ℕ => (i : ℚ)) (fun _ => true) 0 [] 5 0 "someapp" []).ledger
      = [] ++ [{ mkSessionRecord [] (dateOf ((fun i : ℕ => (i : ℚ)) 0))
                    ((fun i : ℕ => (i : ℚ)) 1) ((fun i : ℕ => (i : ℚ)) 1 + 5) 5 with
                 actual_end_time := some (timeOf ((fun i : ℕ => (i : ℚ)) 2)) }] ∧
     (∀ q, Event.progress q
        ∉ (pymain (fun i : ℕ => (i : ℚ)) (fun _ => true) 0 [] 5 0 "someapp" []).events)) :=
  ⟨Nat.one_pos, claim_C4 (fun i : ℕ => (i : ℚ)) (fun _ => true) 0 [] 5 0 "someapp" [] Nat.one_pos⟩

/-- Claim C9: the calendar day recorded in a session row and used for the
daily count is the one captured at `Report.__init__` (clock read `c 0`,
watchdog startup), never the detection time: the appended row carries
`dateOf (c 0)` and continues that day's count even when the process was
only detected on a later day (`dateOf (c 0) < dateOf (c 1)`), while its
`start_time` is the time-of-day of the later reading `c 1`. -/
theorem claim_C9 (c : ℕ → ℚ) (running : ℚ → Bool) (fuel : ℕ) (df0 : List UsageRecord)
    (D : ℚ) (maxT : ℕ) (p : String) (tbl : List Proc)
    (hmid : dateOf (c 0) < dateOf (c 1)) :
    (pymain c running fuel df0 D maxT p tbl).ledger.getLast?.map
        (fun r => (r.date, r.start_time, r.times_opened_today))
      = some (dateOf (c 0), timeOf (c 1), getTimesOpenedToday df0 (dateOf (c 0))) := by
  by_cases hb : maxT < getTimesOpenedToday df0 (dateOf (c 0))
  · rw [pymain_overLimit c running fuel df0 D maxT p tbl hb]
    simp [mkSessionRecord]
  · rw [pymain_inLimit c running fuel df0 D maxT p tbl (not_lt.mp hb)]
    simp [mkSessionRecord]

lemma dateOf_of_small (t : ℚ) (h1 : 0 ≤ t) (h2 : t < secondsPerDay) : dateOf t = 0 :=
  dateOf_eq_of_bounds t 0 (by simpa using h1) (by simpa using h2)

/-- Witness for C9: the watchdog starts at 01:00 of day 0 (clock read
3600) and only detects the process at 01:00 of day 1 (clock read 90000);
the recorded row still carries day 0 and day 0's count. -/
theorem claim_C9_witness :
    dateOf ((fun i : ℕ => if i = 0 then (3600 : ℚ) else 90000) 0)
      < dateOf ((fun i : ℕ => if i = 0 then (3600 : ℚ) else 90000) 1) ∧
    (pymain (fun i : ℕ => if i = 0 then (3600 : ℚ) else 90000) (fun _ => true) 0
        [] 60 3 "someapp" []).ledger.getLast?.map
        (fun r => (r.date, r.start_time, r.times_opened_today))
      = some (dateOf ((fun i : ℕ => if i = 0 then (3600 : ℚ) else 90000) 0),
          timeOf ((fun i : ℕ => if i = 0 then (3600 : ℚ) else 90000) 1),
          getTimesOpenedToday []
            (dateOf ((fun i : ℕ => if i = 0 then (3600 : ℚ) else 90000) 0))) := by
  have h : dateOf ((fun i : ℕ => if i = 0 then (3600 : ℚ) else 90000) 0)
      < dateOf ((fun i : ℕ => if i = 0 then (3600 : ℚ) else 90000) 1) := by
    have e0 : ((fun i : ℕ => if i = 0 then (3600 : ℚ) else 90000) 0) = 3600 := rfl
    have e1 : ((fun i : ℕ => if i = 0 then (3600 : ℚ) else 90000) 1) = 90000 := rfl
    have h0 : dateOf 3600 = 0 := dateOf_of_small 3600 (by norm_num) (by norm_num [secondsPerDay])
    have h1 : dateOf 90000 = 1 :=
      dateOf_eq_of_bounds 90000 1 (by norm_num [secondsPerDay]) (by norm_num [secondsPerDay])
    rw [e0, e1, h0, h1]
    norm_num
  exact ⟨h, claim_C9 (fun i : ℕ => if i = 0 then (3600 : ℚ) else 90000) (fun _ => true) 0
    [] 60 3 "someapp" [] h⟩

/-- Claim C3: the monitor loop continues exactly while the process is
running and the time is before `end_time`; with a process that never exits
on its own and a positive duration D, monitoring ends at a time `te` with
`end_time ≤ te < end_time + interval` (i.e. within D plus one polling
interval of entering at `c 1`), the run's trace issues the kill signal
exactly once, and on the monitored path the trace is the append, the
progress outputs, then the session close at `te` followed by the
terminate call. -/
theorem claim_C3 (c : ℕ → ℚ) (df0 : List UsageRecord) (D : ℚ) (maxT : ℕ)
    (p : String) (tbl : List Proc) (hD : 0 < D) :
    (pymain c (fun _ => true) 101 df0 D maxT p tbl).events.countP Event.isTerminate = 1 ∧
    (c 1 + D ≤ (monitorRun (fun _ => true) (c 1 + D) (computeInterval D) 101 (c 1)).1 ∧
     (monitorRun (fun _ => true) (c 1 + D) (computeInterval D) 101 (c 1)).1
       < c 1 + D + computeInterval D) ∧
    (getTimesOpenedToday df0 (dateOf (c 0)) ≤ maxT →
      (pymain c (fun _ => true) 101 df0 D maxT p tbl).events
        = Event.append
          :: (monitorRun (fun _ => true) (c 1 + D) (computeInterval D) 101 (c 1)).2.map
              (fun t => Event.progress (get_duration_percentage (c 1) (c 1 + D) t))
          ++ [Event.close (monitorRun (fun _ => true) (c 1 + D) (computeInterval D) 101 (c 1)).1,
              Event.terminate (Process.get_pid ⟨p⟩ p tbl)]) := by
  have hint : (0 : ℚ) < computeInterval D := by
    unfold computeInterval
    positivity
  have hle : c 1 + D ≤ c 1 + ((101 : ℕ) : ℚ) * computeInterval D := by
    unfold computeInterval
    push_cast
    linarith
  have hguard := monitorRun_exit_guard (fun _ => true) (c 1 + D) (computeInterval D) 101 (c 1) hle
  refine ⟨?_, ⟨?_, ?_⟩, ?_⟩
  · by_cases hb : maxT < getTimesOpenedToday df0 (dateOf (c 0))
    · rw [pymain_overLimit c (fun _ => true) 101 df0 D maxT p tbl hb]
      simp [Event.isTerminate, List.countP_cons]
    · rw [pymain_inLimit c (fun _ => true) 101 df0 D maxT p tbl (not_lt.mp hb)]
      simp [Event.isTerminate, List.countP_cons, List.countP_append, List.countP_map,
        Function.comp]
  · by_contra hlt
    push_neg at hlt
    exact hguard ⟨rfl, hlt⟩
  · exact monitorRun_exit_lt (fun _ => true) (c 1 + D) (computeInterval D) 101 (c 1) hle
      (by linarith)
  · intro h
    rw [pymain_inLimit c (fun _ => true) 101 df0 D maxT p tbl h]

/-- Witness for C3: duration 1 second, limit 5, empty ledger, the process
never exits on its own. -/
theorem claim_C3_witness :
    (0 : ℚ) < 1 ∧
    ((pymain (fun i : ℕ => (i : ℚ)) (fun _ => true) 101 [] 1 5 "someapp" []).events.countP
        Event.isTerminate = 1 ∧
     ((fun i : ℕ => (i : ℚ)) 1 + 1
        ≤ (monitorRun (fun _ => true) ((fun i : ℕ => (i : ℚ)) 1 + 1) (computeInterval 1) 101
            ((fun i : ℕ => (i : ℚ)) 1)).1 ∧
      (monitorRun (fun _ => true) ((fun i : ℕ => (i : ℚ)) 1 + 1) (computeInterval 1) 101
          ((fun i : ℕ => (i : ℚ)) 1)).1
        < (fun i : ℕ => (i : ℚ)) 1 + 1 + computeInterval 1) ∧
     (getTimesOpenedToday [] (dateOf ((fun i : ℕ => (i : ℚ)) 0)) ≤ 5 →
       (pymain (fun i : ℕ => (i : ℚ)) (fun _ => true) 101 [] 1 5 "someapp" []).events
        = Event.append
          :: (monitorRun (fun _ => true) ((fun i : ℕ => (i : ℚ)) 1 + 1) (computeInterval 1) 101
              ((fun i : ℕ => (i : ℚ)) 1)).2.map
              (fun t => Event.progress
                (get_duration_percentage ((fun i : ℕ => (i : ℚ)) 1)
                  ((fun i : ℕ => (i : ℚ)) 1 + 1) t))
          ++ [Event.close
                (monitorRun (fun _ => true) ((fun i : ℕ => (i : ℚ)) 1 + 1) (computeInterval 1) 101
                  ((fun i : ℕ => (i : ℚ)) 1)).1,
              Event.terminate (Process.get_pid ⟨"someapp"⟩ "someapp" [])])) :=
  ⟨by norm_num,
   claim_C3 (fun i : ℕ => (i : ℚ)) [] 1 5 "someapp" [] (by norm_num)⟩

/-- Claim C5 counterexample: with `maxTimesOpened` K = 0 and the (K+1)th
launch of the day, the over-limit record does NOT have its start and end
recorded as the same instant: `start_time` comes from the clock read at
`prepare_to_monitor` (here second 1) while `actual_end_time` comes from a
later, separate `datetime.now()` read inside `report_termination` (here
second 2). -/
theorem claim_C5_cex :
    getTimesOpenedToday [] (dateOf ((fun i : ℕ => (i : ℚ)) 0)) = 0 + 1 ∧
    (pymain (fun i : ℕ => (i : ℚ)) (fun _ => true) 0 [] 5 0 "someapp" []).ledger.map
        (fun r => (r.start_time, r.actual_end_time)) = [((1 : ℚ), some (2 : ℚ))] ∧
    ((1 : ℚ) ≠ (2 : ℚ)) := by
  have ht1 : timeOf 1 = 1 := timeOf_small 1 (by norm_num) (by norm_num [secondsPerDay])
  have ht2 : timeOf 2 = 2 := timeOf_small 2 (by norm_num) (by norm_num [secondsPerDay])
  refine ⟨rfl, ?_, by norm_num⟩
  rw [pymain_overLimit (fun i : ℕ => (i : ℚ)) (fun _ => true) 0 [] 5 0 "someapp" []
    (by exact Nat.one_pos)]
  simp [mkSessionRecord, ht1, ht2]

/-- Claim C5 (amended): on the over-limit fast path the record's
`actual_end_time` is populated from a fresh clock reading taken
immediately after the one that set `start_time`, in the same invocation
and with no monitoring wait or progress output in between; with a
monotone clock (and both readings on the same calendar day) the recorded
start is at most the recorded end, but the two need not be the same
instant. -/
theorem claim_C5_amended (c : ℕ → ℚ) (running : ℚ → Bool) (fuel : ℕ)
    (df0 : List UsageRecord) (D : ℚ) (maxT : ℕ) (p : String) (tbl : List Proc)
    (hmono : c 1 ≤ c 2) (hday : dateOf (c 1) = dateOf (c 2))
    (h : maxT < getTimesOpenedToday df0 (dateOf (c 0))) :
    (pymain c running fuel df0 D maxT p tbl).ledger.getLast?.map
        (fun r => (r.start_time, r.actual_end_time))
      = some (timeOf (c 1), some (timeOf (c 2))) ∧
    timeOf (c 1) ≤ timeOf (c 2) ∧
    (∀ q, Event.progress q ∉ (pymain c running fuel df0 D maxT p tbl).events) := by
  rw [pymain_overLimit c running fuel df0 D maxT p tbl h]
  refine ⟨by simp [mkSessionRecord], ?_, ?_⟩
  · unfold timeOf
    rw [hday]
    linarith
  · intro q hq
    simp at hq

/-- Witness for C5 (amended): clock reading i seconds at read i, limit 0,
first launch of the day. -/
theorem claim_C5_amended_witness :
    ((fun i : ℕ => (i : ℚ)) 1 ≤ (fun i : ℕ => (i : ℚ)) 2 ∧
     dateOf ((fun i : ℕ => (i : ℚ)) 1) = dateOf ((fun i : ℕ => (i : ℚ)) 2) ∧
     0 < getTimesOpenedToday [] (dateOf ((fun i : ℕ => (i : ℚ)) 0))) ∧
    ((pymain (fun i : ℕ => (i : ℚ)) (fun _ => true) 0 [] 5 0 "someapp" []).ledger.getLast?.map
        (fun r => (r.start_time, r.actual_end_time))
      = some (timeOf ((fun i : ℕ => (i : ℚ)) 1), some (timeOf ((fun i : ℕ => (i : ℚ)) 2))) ∧
     timeOf ((fun i : ℕ => (i : ℚ)) 1) ≤ timeOf ((fun i : ℕ => (i : ℚ)) 2) ∧
     (∀ q, Event.progress q
        ∉ (pymain (fun i : ℕ => (i : ℚ)) (fun _ => true) 0 [] 5 0 "someapp" []).events)) := by
  have hmono : (fun i : ℕ => (i : ℚ)) 1 ≤ (fun i : ℕ => (i : ℚ)) 2 := by norm_num
  have hday : dateOf ((fun i : ℕ => (i : ℚ)) 1) = dateOf ((fun i : ℕ => (i : ℚ)) 2) := by
    have d1 : dateOf 1 = 0 := dateOf_of_small 1 (by norm_num) (by norm_num [secondsPerDay])
    have d2 : dateOf 2 = 0 := dateOf_of_small 2 (by norm_num) (by norm_num [secondsPerDay])
    push_cast
    rw [d1, d2]
  exact ⟨⟨hmono, hday, Nat.one_pos⟩,
    claim_C5_amended (fun i : ℕ => (i : ℚ)) (fun _ => true) 0 [] 5 0 "someapp" []
      hmono hday Nat.one_pos⟩
